import Mathlib

/-!
Verification of the snake-arduino core (src/v2/v2/v2.ino) against its
natural-language specification.

The sketch contains two variants sharing an identical `SnakeGame` engine:
a tilt-sensor variant (`InputICM20948`) and a joystick variant
(`InputJoystick`).  The engine state, its `reset`/`step`/`update`
operations, the apple-placement loop, and both direction-input filters are
embedded below as executable Lean definitions; machine integers are
modelled as `Nat`/`Int` (the 32-bit `unsigned long` timestamp arithmetic
is made explicit with `% 4294967296`), the `float` filter arithmetic is
modelled exactly over `ℚ`, and the blocking `random()` retry loop is
modelled over an explicit list of pending random draws, returning `none`
when the draws are exhausted (the real loop would still be spinning).
-/

/-- v2.ino:24 — `enum Dir : uint8_t { UP, DOWN, LEFT, RIGHT }`. -/
inductive Dir
  | UP
  | DOWN
  | LEFT
  | RIGHT
  deriving DecidableEq, Repr

/-- v2.ino:23 — `struct Point { int8_t x; int8_t y; }`; coordinates stay in
[-1, 8] on every reachable path, far from `int8_t` overflow, so `Int` is an
exact model. -/
structure Point where
  x : Int
  y : Int
  deriving DecidableEq, Repr

/-- v2.ino:206-209 — `SnakeGame::opposite`. -/
def opposite (a b : Dir) : Bool :=
  (a == Dir.UP && b == Dir.DOWN) || (a == Dir.DOWN && b == Dir.UP) ||
  (a == Dir.LEFT && b == Dir.RIGHT) || (a == Dir.RIGHT && b == Dir.LEFT)

/-- v2.ino:211-216 — `SnakeGame::snakeHas`: scans indices `0 ≤ i < len`,
i.e. the whole body list. -/
def snakeHas (snake : List Point) (x y : Int) : Bool :=
  snake.any (fun c => c.x == x && c.y == y)

/-- v2.ino:219-225 — `SnakeGame::snakeHasExceptTail`: returns `false` for an
empty body, otherwise scans indices `0 ≤ i < len - 1`, i.e. every body cell
except the last. -/
def snakeHasExceptTail (snake : List Point) (x y : Int) : Bool :=
  if snake.length = 0 then false
  else (snake.take (snake.length - 1)).any (fun c => c.x == x && c.y == y)

/-- v2.ino:227-236 — `SnakeGame::spawnApple`: `while (true)` drawing
`random(0, W)`/`random(0, H)` (Arduino semantics: raw value mod 8) and
retrying while the drawn cell is occupied.  The infinite random stream is
modelled by the list of draws it will produce; `none` means the loop is
still spinning after exhausting them. -/
def spawnApple : List (Nat × Nat) → List Point → Option Point
  | [], _ => none
  | d :: rest, snake =>
    if snakeHas snake (Int.ofNat (d.1 % 8)) (Int.ofNat (d.2 % 8)) then
      spawnApple rest snake
    else some ⟨Int.ofNat (d.1 % 8), Int.ofNat (d.2 % 8)⟩

/-- The engine state owned by `SnakeGame` (v2.ino:195-204).  The body array
`Point snake[NUM_LEDS]` plus `uint8_t len` is modelled by the list of its
first `len` entries (head at index 0). -/
structure GameState where
  snake : List Point
  apple : Point
  dir : Dir
  pending : Dir
  gameOverFlag : Bool
  lastStep : Nat
  stepMs : Nat
  deriving DecidableEq, Repr

/-- v2.ino:184 — `now - lastStep` on `unsigned long`: wraparound subtraction
modulo 2^32. -/
def wrapSub (now last : Nat) : Nat :=
  (now % 4294967296 + (4294967296 - last % 4294967296)) % 4294967296

/-- v2.ino:245 — `if (!opposite(dir, pending)) dir = pending;`. -/
def resolvedDir (s : GameState) : Dir :=
  if opposite s.dir s.pending then s.dir else s.pending

/-- v2.ino:247 — `Point next = snake[0]` (the global array is
zero-initialized, hence the `⟨0,0⟩` default for the unreachable empty case). -/
def headPt (s : GameState) : Point :=
  s.snake.headD ⟨0, 0⟩

/-- v2.ino:248-253 — move one unit along a direction. -/
def movePt (p : Point) : Dir → Point
  | Dir.UP => ⟨p.x, p.y - 1⟩
  | Dir.DOWN => ⟨p.x, p.y + 1⟩
  | Dir.LEFT => ⟨p.x - 1, p.y⟩
  | Dir.RIGHT => ⟨p.x + 1, p.y⟩

/-- The next head cell computed by a step (v2.ino:245-253). -/
def nextHead (s : GameState) : Point :=
  movePt (headPt s) (resolvedDir s)

/-- v2.ino:255 — `next.x < 0 || next.x >= W || next.y < 0 || next.y >= H`. -/
def wallHit (p : Point) : Bool :=
  decide (p.x < 0) || decide (8 ≤ p.x) || decide (p.y < 0) || decide (8 ≤ p.y)

/-- v2.ino:260 — `bool ate = (next.x == apple.x && next.y == apple.y)`. -/
def ateB (s : GameState) : Bool :=
  (nextHead s).x == s.apple.x && (nextHead s).y == s.apple.y

/-- v2.ino:262-266 — the applicable self-collision check: the full-body scan
when eating, the tail-excluding scan otherwise. -/
def collideB (s : GameState) : Bool :=
  if ateB s then snakeHas s.snake (nextHead s).x (nextHead s).y
  else snakeHasExceptTail s.snake (nextHead s).x (nextHead s).y

/-- v2.ino:268 — `if (ate && len < NUM_LEDS) len++;`. -/
def grownLen (s : GameState) : Nat :=
  if ateB s && decide (s.snake.length < 64) then s.snake.length + 1
  else s.snake.length

/-- v2.ino:270-273 — the shift loop `snake[i] = snake[i-1]` for
`i = len-1 .. 1` followed by `snake[0] = next`, on the array-plus-`len`
representation: the observable body becomes the first `grownLen` entries of
`next :: old body`. -/
def movedSnake (s : GameState) : List Point :=
  (nextHead s :: s.snake).take (grownLen s)

/-- v2.ino:278 — `if (stepMs > 90) stepMs -= 12;`. -/
def nextStepMs (s : GameState) : Nat :=
  if 90 < s.stepMs then s.stepMs - 12 else s.stepMs

/-- v2.ino:244-280 — `SnakeGame::step`.  `none` means the step is stuck
inside the `spawnApple` retry loop. -/
def SnakeGame.step (s : GameState) (draws : List (Nat × Nat)) : Option GameState :=
  if wallHit (nextHead s) then
    some { s with dir := resolvedDir s, gameOverFlag := true }
  else if collideB s then
    some { s with dir := resolvedDir s, gameOverFlag := true }
  else if ateB s then
    match spawnApple draws (movedSnake s) with
    | none => none
    | some a =>
      some { s with snake := movedSnake s, apple := a, dir := resolvedDir s,
                    stepMs := nextStepMs s }
  else
    some { s with snake := movedSnake s, dir := resolvedDir s }

/-- v2.ino:177-189 — `SnakeGame::update`: redraw-only no-op when the game is
over, otherwise run one step when `now - lastStep >= stepMs` (wraparound
subtraction), resetting the step clock to `now` first. -/
def SnakeGame.update (s : GameState) (now : Nat) (draws : List (Nat × Nat)) :
    Option GameState :=
  if s.gameOverFlag then some s
  else if s.stepMs ≤ wrapSub now s.lastStep then
    SnakeGame.step { s with lastStep := now % 4294967296 } draws
  else
    some s

/-- v2.ino:175 — `SnakeGame::setPending`. -/
def SnakeGame.setPending (s : GameState) (d : Dir) : GameState :=
  { s with pending := d }

/-- v2.ino:157-171 — `SnakeGame::reset`: heading RIGHT, 300 ms interval,
length-3 snake at (3,4),(2,4),(1,4), clock at `now`, fresh apple. -/
def SnakeGame.reset (now : Nat) (draws : List (Nat × Nat)) : Option GameState :=
  (spawnApple draws [⟨3, 4⟩, ⟨2, 4⟩, ⟨1, 4⟩]).map (fun a =>
    { snake := [⟨3, 4⟩, ⟨2, 4⟩, ⟨1, 4⟩], apple := a, dir := Dir.RIGHT,
      pending := Dir.RIGHT, gameOverFlag := false,
      lastStep := now % 4294967296, stepMs := 300 })

/-- The external operations that mutate engine state (v2.ino loop():
`setPending` from the input filter, `update` each tick, `reset` on button). -/
inductive Op
  | setPend (d : Dir)
  | upd (now : Nat) (draws : List (Nat × Nat))
  | rst (now : Nat) (draws : List (Nat × Nat))

def applyOp (s : GameState) : Op → Option GameState
  | Op.setPend d => some (SnakeGame.setPending s d)
  | Op.upd now draws => SnakeGame.update s now draws
  | Op.rst now draws => SnakeGame.reset now draws

def runOps (s : GameState) : List Op → Option GameState
  | [] => some s
  | o :: rest =>
    match applyOp s o with
    | none => none
    | some t => runOps t rest

/-- A state is reachable when some initial `reset` followed by a sequence of
engine operations (with some input directions, tick times and random draws)
produces it. -/
def ReachableG (s : GameState) : Prop :=
  ∃ (now : Nat) (draws : List (Nat × Nat)) (ops : List Op),
    (SnakeGame.reset now draws).bind (fun s0 => runOps s0 ops) = some s

/-! ### A concrete play-out: driving the snake around a Hamiltonian cycle

To exhibit reachable states with many apples eaten (for the speed floor) and
with the snake filling the whole grid (for apple placement), we feed the
engine inputs that walk the snake along a fixed Hamiltonian cycle of the
8×8 grid, with each new apple placed on the cell just ahead of the head, so
the snake eats every step and grows by one cell per step. -/

/-- Successor along a Hamiltonian cycle of the 8×8 grid: row 0 runs
left-to-right, rows 1–7 serpentine through columns 1–7, and column 0 climbs
back up to the origin.  The initial body (1,4),(2,4),(3,4) lies forward
along this cycle. -/
def cycleSucc (p : Point) : Point :=
  if p.y = 0 then (if p.x < 7 then ⟨p.x + 1, 0⟩ else ⟨7, 1⟩)
  else if p.x = 0 then ⟨0, p.y - 1⟩
  else if p.y % 2 = 1 then
    (if 1 < p.x then ⟨p.x - 1, p.y⟩
     else if p.y = 7 then ⟨0, 7⟩ else ⟨1, p.y + 1⟩)
  else
    (if p.x < 7 then ⟨p.x + 1, p.y⟩ else ⟨7, p.y + 1⟩)

/-- The grid direction leading from `a` to an adjacent cell `b`. -/
def dirFromTo (a b : Point) : Dir :=
  if a.x < b.x then Dir.RIGHT
  else if b.x < a.x then Dir.LEFT
  else if a.y < b.y then Dir.DOWN
  else Dir.UP

/-- A raw random-draw pair that `spawnApple` decodes back to `p` (for
in-grid `p`). -/
def toRaw (p : Point) : Nat × Nat :=
  (p.x.toNat, p.y.toNat)

/-- One driven engine iteration: aim at the cycle successor of the head,
then tick the clock exactly one step interval so the cadence fires; the
single random draw offered places the new apple on the cell ahead of the
eaten one. -/
def driveStep (s : GameState) : Option GameState :=
  let tgt := cycleSucc (headPt s)
  let s1 := SnakeGame.setPending s (dirFromTo (headPt s) tgt)
  SnakeGame.update s1 (s1.lastStep + s1.stepMs) [toRaw (cycleSucc tgt)]

def driveN (s : GameState) : Nat → Option GameState
  | 0 => some s
  | n + 1 =>
    match driveN s n with
    | none => none
    | some t => driveStep t

/-- The state produced by `reset` with clock 0 and first random draw (4,4). -/
def s0df : GameState :=
  { snake := [⟨3, 4⟩, ⟨2, 4⟩, ⟨1, 4⟩], apple := ⟨4, 4⟩, dir := Dir.RIGHT,
    pending := Dir.RIGHT, gameOverFlag := false, lastStep := 0, stepMs := 300 }

/-- The driven state after 18 eaten apples. -/
def s18 : GameState := (driveN s0df 18).getD s0df

/-- The driven state after 60 eaten apples: body length 63, one free cell
left, the apple sitting on it. -/
def s60 : GameState := (driveN s0df 60).getD s0df

/-- The pending direction the driver would feed for the 61st step. -/
def pend61 : Dir := dirFromTo (headPt s60) (cycleSucc (headPt s60))

/-- The engine state at the start of the 61st step. -/
def s61a : GameState := SnakeGame.setPending s60 pend61

/-- A draw list containing every cell of the 8×8 grid once. -/
def gridRaws : List (Nat × Nat) :=
  (List.range 64).map (fun i => (i % 8, i / 8))

/-- Every cell of the 8×8 grid, as a `Point` list. -/
def gridPoints : List Point :=
  (List.range 64).map (fun i => ⟨Int.ofNat (i % 8), Int.ofNat (i / 8)⟩)

/-- The grown body at the moment the 61st step calls `spawnApple`. -/
def body61 : List Point := movedSnake s61a

/-! ### The tilt-sensor input filter (`InputICM20948`, v2.ino:81-145)

The `float` signal chain is modelled exactly over `ℚ`; the literals 0.08f,
0.18f, 0.80f, 0.20f become the corresponding rationals. -/

/-- v2.ino:19 — `DEAD_G = 0.08f`. -/
def DEAD_G : ℚ := 8 / 100

/-- v2.ino:20 — `TRIG_G = 0.18f`. -/
def TRIG_G : ℚ := 18 / 100

/-- The persistent smoothing state `fx, fy` (v2.ino:130), initialized
to 0 and untouched by `calibrateZero`. -/
structure FilterSt where
  fx : ℚ
  fy : ℚ
  deriving DecidableEq, Repr

/-- v2.ino:103-108 — delta against the rest offsets followed by the
exponential smoothing `f = f * 0.80 + d * 0.20` on each axis. -/
def smoothed (st : FilterSt) (ax0 ay0 ax ay : ℚ) : FilterSt :=
  ⟨st.fx * (80 / 100) + (ax - ax0) * (20 / 100),
   st.fy * (80 / 100) + (ay - ay0) * (20 / 100)⟩

/-- v2.ino:94-124 — `InputICM20948::readDir`: smooth the sample, return
`current` inside the dead zone, else pick the dominant axis and emit a
direction only past the trigger threshold and only if it is not the exact
reverse of `current`.  Returns the updated filter state and the direction. -/
def InputICM20948.readDir (st : FilterSt) (ax0 ay0 ax ay : ℚ) (current : Dir) :
    FilterSt × Dir :=
  if |(smoothed st ax0 ay0 ax ay).fx| < DEAD_G ∧
     |(smoothed st ax0 ay0 ax ay).fy| < DEAD_G then
    (smoothed st ax0 ay0 ax ay, current)
  else if |(smoothed st ax0 ay0 ax ay).fx| > |(smoothed st ax0 ay0 ax ay).fy| then
    (if TRIG_G < (smoothed st ax0 ay0 ax ay).fx ∧ current ≠ Dir.LEFT then
       (smoothed st ax0 ay0 ax ay, Dir.RIGHT)
     else if (smoothed st ax0 ay0 ax ay).fx < -TRIG_G ∧ current ≠ Dir.RIGHT then
       (smoothed st ax0 ay0 ax ay, Dir.LEFT)
     else (smoothed st ax0 ay0 ax ay, current))
  else
    (if TRIG_G < (smoothed st ax0 ay0 ax ay).fy ∧ current ≠ Dir.UP then
       (smoothed st ax0 ay0 ax ay, Dir.DOWN)
     else if (smoothed st ax0 ay0 ax ay).fy < -TRIG_G ∧ current ≠ Dir.DOWN then
       (smoothed st ax0 ay0 ax ay, Dir.UP)
     else (smoothed st ax0 ay0 ax ay, current))

/-- v2.ino:132-144 — `InputICM20948::calibrateZero`: the rest offsets are
the per-axis sums of the N = 50 startup samples divided by 50 (the loop
count is fixed at 50 regardless of the list handed to the model). -/
def calibrateZero (samples : List (ℚ × ℚ)) : ℚ × ℚ :=
  ((samples.map Prod.fst).sum / 50, (samples.map Prod.snd).sum / 50)

/-- Iterated sensor reads: call `readDir` once per sample starting from the
post-calibration filter state `⟨0, 0⟩`, feeding each call the direction the
previous call returned. -/
def runFilter (ax0 ay0 : ℚ) (raw : Nat → ℚ × ℚ) (current : Dir) :
    Nat → FilterSt × Dir
  | 0 => (⟨0, 0⟩, current)
  | n + 1 =>
    InputICM20948.readDir (runFilter ax0 ay0 raw current n).1 ax0 ay0
      (raw n).1 (raw n).2 (runFilter ax0 ay0 raw current n).2

/-! ### The joystick input (`InputJoystick`, v2.ino joystick variant 426-449) -/

/-- Joystick variant — `DEADZONE = 180`. -/
def DEADZONE : Int := 180

/-- Joystick variant, `InputJoystick::read` (direction part): center the raw
10-bit axes on 512, pick the dominant axis, and overwrite `pendingDir` only
past the dead zone; `currentDir` is received but deliberately unused
(`(void)currentDir` — no anti-reversal here).  Returns the new pending
direction. -/
def InputJoystick.read (currentDir pendingDir : Dir) (rawX rawY : Int) : Dir :=
  if |rawX - 512| > |rawY - 512| then
    (if DEADZONE < rawX - 512 then Dir.RIGHT
     else if rawX - 512 < -DEADZONE then Dir.LEFT
     else pendingDir)
  else
    (if DEADZONE < rawY - 512 then Dir.DOWN
     else if rawY - 512 < -DEADZONE then Dir.UP
     else pendingDir)

/-- A game-over state used to exercise the `update` no-op path. -/
def sGO : GameState := { s0df with gameOverFlag := true }

/-- A running state whose next step runs the head into its own body: head
(3,4) turning DOWN into (3,5), which is a non-tail body cell. -/
def s4w : GameState :=
  { snake := [⟨3, 4⟩, ⟨2, 4⟩, ⟨2, 5⟩, ⟨3, 5⟩, ⟨4, 5⟩], apple := ⟨0, 0⟩,
    dir := Dir.RIGHT, pending := Dir.DOWN, gameOverFlag := false,
    lastStep := 0, stepMs := 300 }

/-- The state after the initial state eats the apple at (4,4) in one step
(the single offered draw (0,0) places the next apple). -/
def c6s : GameState := (SnakeGame.step s0df [(0, 0)]).getD s0df

/-- The state after one `update` of the initial state at `now = 300`: the
cadence fires and the step eats the apple at (4,4). -/
def c1ws : GameState := (SnakeGame.update s0df 300 [(0, 0)]).getD s0df

/-- The engine invariant maintained by every reachable state: all body
cells on the 8×8 grid, no duplicated body cell, at least one body cell,
and a step interval that is a multiple of 12 never below 84 ms. -/
def EngineInv (s : GameState) : Prop :=
  (∀ c ∈ s.snake, 0 ≤ c.x ∧ c.x ≤ 7 ∧ 0 ≤ c.y ∧ c.y ≤ 7) ∧
  s.snake.Nodup ∧ 1 ≤ s.snake.length ∧ 84 ≤ s.stepMs ∧ s.stepMs % 12 = 0

/-! ### Helper lemmas -/

theorem snakeHas_eq_mem (l : List Point) (p : Point) :
    snakeHas l p.x p.y = true ↔ p ∈ l := by
  simp only [snakeHas, List.any_eq_true, Bool.and_eq_true, beq_iff_eq]
  constructor
  · rintro ⟨c, hc, h1, h2⟩
    cases c; cases p
    simp_all
  · intro hp
    exact ⟨p, hp, rfl, rfl⟩

theorem snakeHasExceptTail_eq_mem (l : List Point) (p : Point) :
    snakeHasExceptTail l p.x p.y = true ↔ p ∈ l.take (l.length - 1) := by
  unfold snakeHasExceptTail
  rcases l with _ | ⟨a, t⟩
  · simp
  · simp only [List.length_cons, if_neg (Nat.succ_ne_zero _)]
    exact snakeHas_eq_mem _ p

theorem wallHit_false_iff (p : Point) :
    wallHit p = false ↔ 0 ≤ p.x ∧ p.x ≤ 7 ∧ 0 ≤ p.y ∧ p.y ≤ 7 := by
  unfold wallHit
  simp only [Bool.or_eq_false_iff, decide_eq_false_iff_not, not_lt, not_le]
  omega

theorem runOps_snoc (ops : List Op) (s : GameState) (o : Op) :
    runOps s (ops ++ [o]) = (runOps s ops).bind (fun t => applyOp t o) := by
  induction ops generalizing s with
  | nil =>
    rcases happ : applyOp s o with _ | t <;> simp [runOps, happ]
  | cons hd tl ih =>
    rcases happ : applyOp s hd with _ | t <;> simp [runOps, happ, ih]

theorem reachable_applyOp {s s' : GameState} {o : Op} (h : ReachableG s)
    (ho : applyOp s o = some s') : ReachableG s' := by
  obtain ⟨now, draws, ops, hrun⟩ := h
  refine ⟨now, draws, ops ++ [o], ?_⟩
  rcases hreset : SnakeGame.reset now draws with _ | s0 <;>
    rw [hreset] at hrun <;>
    simp_all [runOps_snoc]

theorem reachable_driveStep {s s' : GameState} (h : ReachableG s)
    (hd : driveStep s = some s') : ReachableG s' := by
  unfold driveStep at hd
  have h1 : ReachableG (SnakeGame.setPending s (dirFromTo (headPt s) (cycleSucc (headPt s)))) :=
    reachable_applyOp h (o := Op.setPend (dirFromTo (headPt s) (cycleSucc (headPt s)))) rfl
  exact reachable_applyOp h1 (o := Op.upd _ _) hd

theorem reachable_driveN {s s' : GameState} {n : Nat} (h : ReachableG s)
    (hd : driveN s n = some s') : ReachableG s' := by
  induction n generalizing s' with
  | zero =>
    simp only [driveN] at hd
    cases hd; exact h
  | succ n ih =>
    simp only [driveN] at hd
    rcases hmid : driveN s n with _ | t
    · rw [hmid] at hd; exact absurd hd (by simp)
    · rw [hmid] at hd
      exact reachable_driveStep (ih hmid) hd

theorem reachable_s0df : ReachableG s0df :=
  ⟨0, [(4, 4)], [], by decide⟩

theorem grownLen_le (s : GameState) : grownLen s ≤ s.snake.length + 1 := by
  unfold grownLen; split <;> omega

theorem grownLen_pos (s : GameState) (h : 1 ≤ s.snake.length) :
    1 ≤ grownLen s := by
  unfold grownLen; split <;> omega

theorem movedSnake_length (s : GameState) :
    (movedSnake s).length = grownLen s := by
  have h := grownLen_le s
  simp only [movedSnake, List.length_take, List.length_cons]
  omega

theorem mem_movedSnake {s : GameState} {c : Point} (h : c ∈ movedSnake s) :
    c = nextHead s ∨ c ∈ s.snake := by
  unfold movedSnake at h
  have := List.mem_of_mem_take h
  rcases List.mem_cons.mp this with h1 | h1
  · exact Or.inl h1
  · exact Or.inr h1

theorem grownLen_of_not_ate {s : GameState} (h : ateB s = false) :
    grownLen s = s.snake.length := by
  unfold grownLen
  rw [h]
  simp

theorem movedSnake_nodup {s : GameState} (h1 : s.snake.Nodup)
    (hc : collideB s = false) : (movedSnake s).Nodup := by
  unfold collideB at hc
  by_cases hate : ateB s = true
  · rw [if_pos hate] at hc
    have hnm : nextHead s ∉ s.snake := by
      intro hm
      rw [(snakeHas_eq_mem s.snake (nextHead s)).mpr hm] at hc
      exact Bool.true_eq_false.mp hc
    exact (List.take_sublist _ _).nodup (List.nodup_cons.mpr ⟨hnm, h1⟩)
  · rw [if_neg hate] at hc
    have hnm : nextHead s ∉ s.snake.take (s.snake.length - 1) := by
      intro hm
      rw [(snakeHasExceptTail_eq_mem s.snake (nextHead s)).mpr hm] at hc
      exact Bool.true_eq_false.mp hc
    have hg : grownLen s = s.snake.length :=
      grownLen_of_not_ate (Bool.eq_false_iff.mpr hate)
    unfold movedSnake
    rw [hg]
    rcases hsn : s.snake with _ | ⟨a, t⟩
    · simp
    · rw [hsn] at hnm h1
      simp only [List.length_cons, List.take_succ_cons]
      refine List.nodup_cons.mpr ⟨?_, (List.take_sublist _ _).nodup h1⟩
      simpa using hnm

theorem EngineInv_step {s s' : GameState} {draws : List (Nat × Nat)}
    (h : EngineInv s) (hs : SnakeGame.step s draws = some s') : EngineInv s' := by
  obtain ⟨hin, hnd, hlen, hms, hmod⟩ := h
  unfold SnakeGame.step at hs
  by_cases hw : wallHit (nextHead s) = true
  · rw [if_pos hw] at hs
    cases hs
    exact ⟨hin, hnd, hlen, hms, hmod⟩
  · rw [if_neg hw] at hs
    have hw' : wallHit (nextHead s) = false := Bool.eq_false_iff.mpr hw
    by_cases hcoll : collideB s = true
    · rw [if_pos hcoll] at hs
      cases hs
      exact ⟨hin, hnd, hlen, hms, hmod⟩
    · rw [if_neg hcoll] at hs
      have hcoll' : collideB s = false := Bool.eq_false_iff.mpr hcoll
      have hinm : ∀ c ∈ movedSnake s, 0 ≤ c.x ∧ c.x ≤ 7 ∧ 0 ≤ c.y ∧ c.y ≤ 7 := by
        intro c hc
        rcases mem_movedSnake hc with rfl | hcs
        · exact (wallHit_false_iff _).mp hw'
        · exact hin c hcs
      have hlenm : 1 ≤ (movedSnake s).length := by
        rw [movedSnake_length]; exact grownLen_pos s hlen
      by_cases hate : ateB s = true
      · rw [if_pos hate] at hs
        rcases hsp : spawnApple draws (movedSnake s) with _ | a <;> rw [hsp] at hs
        · exact absurd hs (by simp)
        · cases hs
          refine ⟨hinm, movedSnake_nodup hnd hcoll', hlenm, ?_, ?_⟩
          · show 84 ≤ nextStepMs s
            unfold nextStepMs; split <;> omega
          · show nextStepMs s % 12 = 0
            unfold nextStepMs; split <;> omega
      · rw [if_neg hate] at hs
        cases hs
        exact ⟨hinm, movedSnake_nodup hnd hcoll', hlenm, hms, hmod⟩

theorem EngineInv_reset {now : Nat} {draws : List (Nat × Nat)} {s : GameState}
    (h : SnakeGame.reset now draws = some s) : EngineInv s := by
  unfold SnakeGame.reset at h
  rcases hsp : spawnApple draws [⟨3, 4⟩, ⟨2, 4⟩, ⟨1, 4⟩] with _ | a <;>
    rw [hsp] at h
  · exact absurd h (by simp)
  · rw [Option.map_some'] at h
    cases h
    refine ⟨?_, ?_, ?_, ?_, ?_⟩ <;> dsimp only <;> decide

theorem EngineInv_update {s s' : GameState} {now : Nat} {draws : List (Nat × Nat)}
    (h : EngineInv s) (hu : SnakeGame.update s now draws = some s') : EngineInv s' := by
  unfold SnakeGame.update at hu
  split at hu
  · cases hu; exact h
  · split at hu
    · exact EngineInv_step (s := { s with lastStep := now % 4294967296 }) h hu
    · cases hu; exact h

theorem EngineInv_applyOp {s s' : GameState} {o : Op} (h : EngineInv s)
    (ho : applyOp s o = some s') : EngineInv s' := by
  cases o with
  | setPend d => cases ho; exact h
  | upd now draws => exact EngineInv_update h ho
  | rst now draws => exact EngineInv_reset ho

theorem EngineInv_runOps {s s' : GameState} {ops : List Op} (h : EngineInv s)
    (hr : runOps s ops = some s') : EngineInv s' := by
  induction ops generalizing s with
  | nil =>
    simp only [runOps] at hr
    cases hr; exact h
  | cons o rest ih =>
    simp only [runOps] at hr
    rcases ho : applyOp s o with _ | t <;> rw [ho] at hr
    · exact absurd hr (by simp)
    · exact ih (EngineInv_applyOp h ho) hr

theorem invariant_reachable {s : GameState} (h : ReachableG s) : EngineInv s := by
  obtain ⟨now, draws, ops, hrun⟩ := h
  rcases hreset : SnakeGame.reset now draws with _ | s0 <;> rw [hreset] at hrun
  · exact absurd hrun (by simp)
  · exact EngineInv_runOps (EngineInv_reset hreset) hrun

theorem step_stepMs {s s' : GameState} {draws : List (Nat × Nat)}
    (hs : SnakeGame.step s draws = some s') :
    s'.stepMs = s.stepMs ∨ (90 < s.stepMs ∧ s'.stepMs = s.stepMs - 12) := by
  unfold SnakeGame.step at hs
  split at hs
  · cases hs; exact Or.inl rfl
  · split at hs
    · cases hs; exact Or.inl rfl
    · split at hs
      · rcases hsp : spawnApple draws (movedSnake s) with _ | a <;> rw [hsp] at hs
        · exact absurd hs (by simp)
        · cases hs
          unfold nextStepMs
          split
          · exact Or.inr ⟨by assumption, rfl⟩
          · exact Or.inl rfl
      · cases hs; exact Or.inl rfl

/-! ### Claim theorems -/

/-- C1 counterexample: the state reached from `reset()` by eating 18 apples
is reachable and its `stepMs` is 84, strictly below the claimed 90 ms
floor — `if (stepMs > 90) stepMs -= 12` steps 96 down to 84. -/
theorem c1_floor_counterexample :
    ReachableG s18 ∧ s18.stepMs = 84 ∧ s18.stepMs < 90 :=
  ⟨reachable_driveN reachable_s0df
    (show driveN s0df 18 = some s18 by decide), by decide, by decide⟩

theorem step_stepMs_law {s s' : GameState} {draws : List (Nat × Nat)}
    (hgo : s.gameOverFlag = false) (hs : SnakeGame.step s draws = some s') :
    (s'.gameOverFlag = false → ateB s = true →
      s'.stepMs = if 90 < s.stepMs then s.stepMs - 12 else s.stepMs) ∧
    (s'.gameOverFlag = false → ateB s = false → s'.stepMs = s.stepMs) ∧
    (s'.gameOverFlag = true → s'.stepMs = s.stepMs) := by
  unfold SnakeGame.step at hs
  split at hs
  · cases hs
    exact ⟨fun hf _ => Bool.noConfusion hf, fun hf _ => Bool.noConfusion hf,
      fun _ => rfl⟩
  · split at hs
    · cases hs
      exact ⟨fun hf _ => Bool.noConfusion hf, fun hf _ => Bool.noConfusion hf,
        fun _ => rfl⟩
    · split at hs
      case isTrue hate =>
        rcases hsp : spawnApple draws (movedSnake s) with _ | a <;> rw [hsp] at hs
        · exact absurd hs (by simp)
        · cases hs
          refine ⟨fun _ _ => rfl, fun _ haf => ?_, fun ht => ?_⟩
          · exact Bool.noConfusion (hate ▸ haf)
          · have ht2 : s.gameOverFlag = true := ht
            exact Bool.noConfusion (hgo ▸ ht2)
      case isFalse hate =>
        cases hs
        have hate' : ateB s = false := Bool.eq_false_iff.mpr hate
        refine ⟨fun _ hat => ?_, fun _ _ => rfl, fun ht => ?_⟩
        · exact Bool.noConfusion (hate' ▸ hat)
        · have ht2 : s.gameOverFlag = true := ht
          exact Bool.noConfusion (hgo ▸ ht2)

/-- C1 (amended): over any reachable state, an `update` never increases
`stepMs` and leaves it at or above 84 ms — the actual saturation value
reached from the 300 ms start; moreover the per-apple law holds: a
completed step that eats the apple decreases `stepMs` by exactly 12 ms
when it is above 90 ms and leaves it unchanged once it is at or below
90 ms, while a completed step without an apple, a step that enters
GAME_OVER, and an `update` that runs no step all leave `stepMs`
unchanged. -/
theorem c1_interval_amended (s : GameState) (now : Nat)
    (draws : List (Nat × Nat)) (s' : GameState) (hre : ReachableG s)
    (hup : SnakeGame.update s now draws = some s') :
    s'.stepMs ≤ s.stepMs ∧ 84 ≤ s'.stepMs ∧
    (s.gameOverFlag = false → s.stepMs ≤ wrapSub now s.lastStep →
      s'.gameOverFlag = false → ateB s = true →
      s'.stepMs = if 90 < s.stepMs then s.stepMs - 12 else s.stepMs) ∧
    (s.gameOverFlag = false → s.stepMs ≤ wrapSub now s.lastStep →
      s'.gameOverFlag = false → ateB s = false → s'.stepMs = s.stepMs) ∧
    (s'.gameOverFlag = true → s'.stepMs = s.stepMs) ∧
    (s.gameOverFlag = true ∨ wrapSub now s.lastStep < s.stepMs →
      s'.stepMs = s.stepMs) := by
  obtain ⟨-, -, -, hms, hmod⟩ := invariant_reachable hre
  unfold SnakeGame.update at hup
  split at hup
  case isTrue hflag =>
    cases hup
    refine ⟨Nat.le_refl _, hms, ?_, ?_, fun _ => rfl, fun _ => rfl⟩ <;>
      · intro h1 _ _ _
        exact Bool.noConfusion (hflag ▸ h1)
  case isFalse hflag =>
    have hgo : s.gameOverFlag = false := Bool.eq_false_iff.mpr hflag
    split at hup
    case isTrue hcad =>
      have hlaw := step_stepMs_law
        (s := { s with lastStep := now % 4294967296 }) hgo hup
      have hmono := step_stepMs hup
      dsimp only at hmono
      refine ⟨?_, ?_, fun _ _ hf ha => hlaw.1 hf ha,
        fun _ _ hf ha => hlaw.2.1 hf ha, hlaw.2.2, ?_⟩
      · rcases hmono with h | ⟨h1, h2⟩ <;> omega
      · rcases hmono with h | ⟨h1, h2⟩ <;> omega
      · intro hor
        rcases hor with h | h
        · exact Bool.noConfusion (h ▸ hgo)
        · exact absurd hcad (by omega)
    case isFalse hcad =>
      cases hup
      refine ⟨Nat.le_refl _, hms, ?_, ?_, fun _ => rfl, fun _ => rfl⟩ <;>
        · intro _ hc _ _
          exact absurd hc hcad

theorem c1_interval_amended_witness :
    c1ws.stepMs = if 90 < s0df.stepMs then s0df.stepMs - 12 else s0df.stepMs :=
  (c1_interval_amended s0df 300 [(0, 0)] c1ws reachable_s0df
      (by decide)).2.2.1 (by decide) (by decide) (by decide) (by decide)

/-- C5: in every state reachable through `reset()` and simulation steps,
every body cell lies within [0,7]×[0,7], and (in particular whenever the
last step did not produce GAME_OVER) the body cells are pairwise
distinct. -/
theorem c5_reachable_invariant (s : GameState) (h : ReachableG s) :
    (∀ c ∈ s.snake, 0 ≤ c.x ∧ c.x ≤ 7 ∧ 0 ≤ c.y ∧ c.y ≤ 7) ∧
    (s.gameOverFlag = false → s.snake.Nodup) := by
  obtain ⟨hin, hnd, -, -, -⟩ := invariant_reachable h
  exact ⟨hin, fun _ => hnd⟩

theorem c5_reachable_invariant_witness : s0df.snake.Nodup :=
  (c5_reachable_invariant s0df reachable_s0df).2 rfl

/-- C7: once `gameOverFlag` is set, every `update` call leaves the whole
engine state unchanged (body, length, apple, direction, pending direction,
`stepMs`, step clock) and the engine stays in GAME_OVER; only the terminal
pattern is redrawn. -/
theorem c7_gameover_update_noop (s : GameState) (now : Nat)
    (draws : List (Nat × Nat)) (h : s.gameOverFlag = true) :
    SnakeGame.update s now draws = some s := by
  unfold SnakeGame.update
  rw [h]
  simp

theorem c7_gameover_update_noop_witness :
    SnakeGame.update sGO 123456 [(0, 0)] = some sGO :=
  c7_gameover_update_noop sGO 123456 [(0, 0)] rfl

/-- C9: the cadence check subtracts timestamps with unsigned 32-bit
wraparound, so when `now` is the (mod-2^32) timestamp `e` milliseconds
after `last`, `wrapSub` recovers the true elapsed time modulo 2^32, and
for any elapsed time below 2^32 the comparison against a threshold is
exactly the comparison on true elapsed time — wrap past zero included. -/
theorem c9_wrapSub_correct (last e m : Nat) :
    wrapSub ((last + e) % 4294967296) last = e % 4294967296 ∧
    (e < 4294967296 →
      (m ≤ wrapSub ((last + e) % 4294967296) last ↔ m ≤ e)) := by
  unfold wrapSub
  constructor
  · omega
  · intro he
    omega

theorem c9_wrapSub_correct_witness :
    wrapSub ((4294967196 + 250) % 4294967296) 4294967196 = 250 % 4294967296 ∧
    (200 ≤ wrapSub ((4294967196 + 250) % 4294967296) 4294967196 ↔ 200 ≤ 250) :=
  ⟨(c9_wrapSub_correct 4294967196 250 200).1,
   (c9_wrapSub_correct 4294967196 250 200).2 (by norm_num)⟩

theorem spawnApple_none_forall {draws : List (Nat × Nat)} {snake : List Point}
    (h : spawnApple draws snake = none) :
    ∀ d ∈ draws,
      snakeHas snake (Int.ofNat (d.1 % 8)) (Int.ofNat (d.2 % 8)) = true := by
  induction draws with
  | nil => intro d hd; cases hd
  | cons d rest ih =>
    intro e he
    unfold spawnApple at h
    by_cases hh : snakeHas snake (Int.ofNat (d.1 % 8)) (Int.ofNat (d.2 % 8)) = true
    · rcases List.mem_cons.mp he with rfl | he'
      · exact hh
      · rw [if_pos hh] at h
        exact ih h e he'
    · rw [if_neg hh] at h
      exact absurd h (by simp)

/-- C2 (amended): the placement loop terminates as soon as the random
stream draws a free cell, and a free cell exists whenever the snake
occupies fewer than 64 cells: on draws covering the whole grid,
`spawnApple` succeeds for every such body. -/
theorem c2_spawn_terminates (snake : List Point) (h : snake.length < 64) :
    spawnApple gridRaws snake ≠ none := by
  intro hnone
  have hall := spawnApple_none_forall hnone
  have hsub : ∀ p ∈ gridPoints, p ∈ snake := by
    intro p hp
    simp only [gridPoints, List.mem_map, List.mem_range] at hp
    obtain ⟨i, hi, rfl⟩ := hp
    have hd : (i % 8, i / 8) ∈ gridRaws := by
      simp only [gridRaws, List.mem_map, List.mem_range]
      exact ⟨i, hi, rfl⟩
    have hmm : i % 8 % 8 = i % 8 := Nat.mod_eq_of_lt (Nat.mod_lt i (by norm_num))
    have hdd : i / 8 % 8 = i / 8 := Nat.mod_eq_of_lt (by omega)
    have := hall _ hd
    rw [hmm, hdd] at this
    exact (snakeHas_eq_mem snake ⟨Int.ofNat (i % 8), Int.ofNat (i / 8)⟩).mp this
  have h1 : gridPoints.toFinset ⊆ snake.toFinset := by
    intro p hp
    rw [List.mem_toFinset] at hp ⊢
    exact hsub p hp
  have h2 : gridPoints.toFinset.card = 64 := by
    rw [List.toFinset_card_of_nodup (by decide)]
    decide
  have h3 : snake.toFinset.card ≤ snake.length := snake.toFinset_card_le
  have h4 := Finset.card_le_card h1
  omega

theorem c2_spawn_terminates_witness :
    spawnApple gridRaws [⟨3, 4⟩, ⟨2, 4⟩, ⟨1, 4⟩] ≠ none :=
  c2_spawn_terminates [⟨3, 4⟩, ⟨2, 4⟩, ⟨1, 4⟩] (by decide)

/-- C2 counterexample: growth is capped AT the 64-cell capacity, not below
it, so a reachable state exists (the driven state after 60 apples, body
length 63) whose next step eats the last free cell; when that step calls
`spawnApple` the grown body occupies every grid cell — every one of the 64
possible draws is rejected — so the retry loop never terminates and the
step is stuck. -/
theorem c2_spawn_stuck_counterexample :
    ReachableG s60 ∧
    (List.range 64).all
      (fun i => snakeHas body61 (Int.ofNat (i % 8)) (Int.ofNat (i / 8))) = true ∧
    SnakeGame.update s61a (s61a.lastStep + s61a.stepMs) gridRaws = none :=
  ⟨reachable_driveN reachable_s0df (show driveN s0df 60 = some s60 by decide),
   by decide, by decide⟩

/-- C4: in a step whose next head cell is on the grid, the self-collision
check is membership in all body cells except the last when the next cell is
not the apple, and membership in ALL body cells (tail included) when it is
the apple; whenever the applicable check is positive the step returns the
GAME_OVER state with the heading resolved and nothing else mutated. -/
theorem c4_tail_exclusion (s : GameState) (draws : List (Nat × Nat))
    (hwall : wallHit (nextHead s) = false) :
    (ateB s = true → (collideB s = true ↔ nextHead s ∈ s.snake)) ∧
    (ateB s = false → (collideB s = true ↔ nextHead s ∈ s.snake.dropLast)) ∧
    (collideB s = true →
      SnakeGame.step s draws =
        some { s with dir := resolvedDir s, gameOverFlag := true }) := by
  refine ⟨?_, ?_, ?_⟩
  · intro hate
    unfold collideB
    rw [hate]
    simpa using snakeHas_eq_mem s.snake (nextHead s)
  · intro hate
    unfold collideB
    rw [hate]
    rw [List.dropLast_eq_take]
    simpa using snakeHasExceptTail_eq_mem s.snake (nextHead s)
  · intro hc
    unfold SnakeGame.step
    rw [hwall, hc]
    simp

theorem c4_tail_exclusion_witness :
    SnakeGame.step s4w [] =
      some { s4w with dir := Dir.DOWN, gameOverFlag := true } :=
  (c4_tail_exclusion s4w [] (by decide)).2.2 (by decide)

/-- C6: a step never reduces the snake's length; a step ending in GAME_OVER
leaves the body unchanged; a completed step that eats the apple increases
the length by exactly 1 while below the 64-cell capacity and keeps it
constant at capacity; a completed step that does not eat keeps the length
unchanged. -/
theorem c6_growth (s : GameState) (draws : List (Nat × Nat)) (s' : GameState)
    (hgo : s.gameOverFlag = false)
    (hs : SnakeGame.step s draws = some s') :
    s.snake.length ≤ s'.snake.length ∧
    (s'.gameOverFlag = true → s'.snake = s.snake) ∧
    (s'.gameOverFlag = false → ateB s = true →
      s'.snake.length =
        if s.snake.length < 64 then s.snake.length + 1 else s.snake.length) ∧
    (s'.gameOverFlag = false → ateB s = false →
      s'.snake.length = s.snake.length) := by
  unfold SnakeGame.step at hs
  split at hs
  · cases hs
    refine ⟨Nat.le_refl _, fun _ => rfl, fun hfalse _ => ?_, fun _ _ => rfl⟩
    exact absurd hfalse (by simp)
  · split at hs
    · cases hs
      refine ⟨Nat.le_refl _, fun _ => rfl, fun hfalse _ => ?_, fun _ _ => rfl⟩
      exact absurd hfalse (by simp)
    · split at hs
      case isTrue hate =>
        rcases hsp : spawnApple draws (movedSnake s) with _ | a <;>
          rw [hsp] at hs
        · exact absurd hs (by simp)
        · cases hs
          have hl : (movedSnake s).length = grownLen s := movedSnake_length s
          refine ⟨?_, fun htrue => ?_, fun _ _ => ?_, fun _ hfalse => ?_⟩
          · show s.snake.length ≤ (movedSnake s).length
            rw [hl]; unfold grownLen; split <;> omega
          · exact absurd (hgo ▸ htrue) (by simp)
          · show (movedSnake s).length = _
            rw [hl]; unfold grownLen; rw [hate]
            by_cases h64 : s.snake.length < 64 <;> simp [h64]
          · exact absurd (hate ▸ hfalse) (by simp)
      case isFalse hate =>
        cases hs
        have hate' : ateB s = false := Bool.eq_false_iff.mpr hate
        have hl : (movedSnake s).length = grownLen s := movedSnake_length s
        have hg : grownLen s = s.snake.length := grownLen_of_not_ate hate'
        refine ⟨?_, fun htrue => ?_, fun _ htrue => ?_, fun _ _ => ?_⟩
        · show s.snake.length ≤ (movedSnake s).length
          omega
        · exact absurd (hgo ▸ htrue) (by simp)
        · exact absurd (hate' ▸ htrue) (by simp)
        · show (movedSnake s).length = s.snake.length
          omega

theorem c6_growth_witness : c6s.snake.length = 4 := by
  have h :=
    (c6_growth s0df [(0, 0)] c6s rfl (by decide)).2.2.1
      (by decide) (by decide)
  have he : (if s0df.snake.length < 64 then s0df.snake.length + 1
      else s0df.snake.length) = 4 := by decide
  exact h.trans he

/-- C3 counterexample: with current heading RIGHT and a hard-left raw X
sample, the joystick read emits LEFT — the exact 180° opposite of the
current heading — because `InputJoystick::read` discards `currentDir`
(`(void)currentDir`): anti-reversal is NOT applied by the joystick
implementation (the engine drops the reversal later instead). -/
theorem c3_antireversal_counterexample :
    InputJoystick.read Dir.RIGHT Dir.RIGHT 112 512 = Dir.LEFT ∧
    opposite Dir.RIGHT Dir.LEFT = true := by
  constructor
  · decide
  · decide

/-- C3 (amended): the joystick read applies the same dead-zone and
dominant-axis rules as the tilt filter — inside the dead zone it leaves the
pending direction (seeded with the current heading by the caller)
unchanged, a dominant X axis can only yield RIGHT, LEFT or the seeded
direction, and a non-dominant X axis only DOWN, UP or the seeded
direction — but it does not apply anti-reversal, so it can emit the exact
opposite of the current heading. -/
theorem c3_joystick_amended (cur pend : Dir) (rawX rawY : Int) :
    (|rawX - 512| ≤ 180 → |rawY - 512| ≤ 180 →
      InputJoystick.read cur pend rawX rawY = pend) ∧
    (|rawX - 512| > |rawY - 512| →
      (InputJoystick.read cur pend rawX rawY = Dir.RIGHT ∨
       InputJoystick.read cur pend rawX rawY = Dir.LEFT ∨
       InputJoystick.read cur pend rawX rawY = pend)) ∧
    (¬(|rawX - 512| > |rawY - 512|) →
      (InputJoystick.read cur pend rawX rawY = Dir.DOWN ∨
       InputJoystick.read cur pend rawX rawY = Dir.UP ∨
       InputJoystick.read cur pend rawX rawY = pend)) := by
  refine ⟨fun hx hy => ?_, fun hdom => ?_, fun hdom => ?_⟩ <;>
    (try rw [abs_le] at hx hy) <;>
    unfold InputJoystick.read DEADZONE <;>
    split_ifs <;> first | rfl | tauto | omega

theorem c3_joystick_amended_witness :
    InputJoystick.read Dir.UP Dir.DOWN 512 512 = Dir.DOWN :=
  (c3_joystick_amended Dir.UP Dir.DOWN 512 512).1 (by decide) (by decide)

theorem filter_bound {a b : ℚ} (ha : |a| < DEAD_G) (hb : |b| < DEAD_G) :
    |a * (80 / 100) + b * (20 / 100)| < DEAD_G := by
  have h1 : |a * (80 / 100) + b * (20 / 100)| ≤
      |a| * (80 / 100) + |b| * (20 / 100) := by
    calc |a * (80 / 100) + b * (20 / 100)|
        ≤ |a * (80 / 100)| + |b * (20 / 100)| := abs_add _ _
      _ = |a| * (80 / 100) + |b| * (20 / 100) := by
          rw [abs_mul, abs_mul,
            abs_of_pos (show (0 : ℚ) < 80 / 100 by norm_num),
            abs_of_pos (show (0 : ℚ) < 20 / 100 by norm_num)]
  unfold DEAD_G at ha hb ⊢
  linarith

/-- C8: with the rest offsets produced by `calibrateZero` and the filter
state `(0,0)` that calibration leaves behind, if every subsequent raw
sample keeps its per-axis delta against the offsets strictly below the
dead-zone threshold, then every one of arbitrarily many consecutive
`readDir` calls returns the `current` direction it was given — the
smoothed values never leave the dead zone. -/
theorem c8_deadzone_stable (samples : List (ℚ × ℚ)) (raw : Nat → ℚ × ℚ)
    (current : Dir)
    (h : ∀ i, |(raw i).1 - (calibrateZero samples).1| < DEAD_G ∧
              |(raw i).2 - (calibrateZero samples).2| < DEAD_G) :
    ∀ n, (runFilter (calibrateZero samples).1 (calibrateZero samples).2
      raw current n).2 = current := by
  have key : ∀ n,
      |(runFilter (calibrateZero samples).1 (calibrateZero samples).2
          raw current n).1.fx| < DEAD_G ∧
      |(runFilter (calibrateZero samples).1 (calibrateZero samples).2
          raw current n).1.fy| < DEAD_G ∧
      (runFilter (calibrateZero samples).1 (calibrateZero samples).2
          raw current n).2 = current := by
    intro n
    induction n with
    | zero =>
      have h0 : |(0 : ℚ)| < DEAD_G := by
        rw [abs_zero]; unfold DEAD_G; norm_num
      exact ⟨h0, h0, rfl⟩
    | succ n ih =>
      obtain ⟨hfx, hfy, hdir⟩ := ih
      have hx' := filter_bound hfx (h n).1
      have hy' := filter_bound hfy (h n).2
      simp only [runFilter]
      unfold InputICM20948.readDir
      rw [if_pos ⟨hx', hy'⟩]
      exact ⟨hx', hy', hdir⟩
  intro n
  exact (key n).2.2

theorem c8_deadzone_stable_witness :
    (runFilter (calibrateZero (List.replicate 50 ((0 : ℚ), (0 : ℚ)))).1
      (calibrateZero (List.replicate 50 ((0 : ℚ), (0 : ℚ)))).2
      (fun _ => ((0 : ℚ), (0 : ℚ))) Dir.RIGHT 5).2 = Dir.RIGHT :=
  c8_deadzone_stable (List.replicate 50 ((0 : ℚ), (0 : ℚ)))
    (fun _ => ((0 : ℚ), (0 : ℚ))) Dir.RIGHT
    (fun i => by
      constructor <;>
        · show |(0 : ℚ) - _| < DEAD_G
          simp [calibrateZero, DEAD_G]) 5

/-- C10: when both smoothed axis magnitudes clear the dead zone and are
exactly equal, the strict dominant-axis comparison (`|fx| > |fy|`) fails,
so the sample is resolved on the vertical axis: `readDir` can only return
DOWN, UP, or the current heading — never LEFT or RIGHT; the joystick
`read` resolves equal-magnitude ties the same way (DOWN, UP, or the seeded
pending direction). -/
theorem c10_tie_vertical (st : FilterSt) (ax0 ay0 ax ay : ℚ) (cur : Dir)
    (pend : Dir) (rx ry : Int)
    (heq : |(smoothed st ax0 ay0 ax ay).fx| = |(smoothed st ax0 ay0 ax ay).fy|)
    (hdz : DEAD_G ≤ |(smoothed st ax0 ay0 ax ay).fx|)
    (hj : |rx - 512| = |ry - 512|) :
    ((InputICM20948.readDir st ax0 ay0 ax ay cur).2 = Dir.DOWN ∨
     (InputICM20948.readDir st ax0 ay0 ax ay cur).2 = Dir.UP ∨
     (InputICM20948.readDir st ax0 ay0 ax ay cur).2 = cur) ∧
    (InputJoystick.read cur pend rx ry = Dir.DOWN ∨
     InputJoystick.read cur pend rx ry = Dir.UP ∨
     InputJoystick.read cur pend rx ry = pend) := by
  constructor
  · unfold InputICM20948.readDir
    split_ifs <;> simp_all
  · unfold InputJoystick.read
    split_ifs <;> simp_all

theorem c10_tie_vertical_witness :
    ((InputICM20948.readDir ⟨0, 0⟩ 0 0 1 1 Dir.LEFT).2 = Dir.DOWN ∨
     (InputICM20948.readDir ⟨0, 0⟩ 0 0 1 1 Dir.LEFT).2 = Dir.UP ∨
     (InputICM20948.readDir ⟨0, 0⟩ 0 0 1 1 Dir.LEFT).2 = Dir.LEFT) ∧
    (InputJoystick.read Dir.LEFT Dir.LEFT 712 712 = Dir.DOWN ∨
     InputJoystick.read Dir.LEFT Dir.LEFT 712 712 = Dir.UP ∨
     InputJoystick.read Dir.LEFT Dir.LEFT 712 712 = Dir.LEFT) :=
  c10_tie_vertical ⟨0, 0⟩ 0 0 1 1 Dir.LEFT Dir.LEFT 712 712
    (by norm_num [smoothed])
    (by
      rw [show (smoothed ⟨0, 0⟩ 0 0 1 1).fx = 1 / 5 by norm_num [smoothed],
        abs_of_pos (show (0 : ℚ) < 1 / 5 by norm_num)]
      unfold DEAD_G
      norm_num)
    (by decide)
